import Mathlib

/-!
Shallow embedding of `src/app.py` (Unicode-to-Emoji FastAPI service).

A Python `str` is a finite sequence of Unicode codepoints in `0 .. 0x10FFFF`
(surrogates included).  Inputs to the converter are modelled as `List Char`
(all inputs of interest are ordinary scalar text), while the converter's
OUTPUT is modelled as `List Nat`: the list of codepoints of the produced
Python string.  This matters because Python `chr` happily produces lone
surrogates (U+D800 .. U+DFFF), which Lean `Char` cannot represent.
-/

/-- The characters Python `str.split()` / `str.strip()` treat as whitespace
(characters `c` with `c.isspace()` true). -/
def pySpaceChars : List Char :=
  ['\t', '\n', '\x0b', '\x0c', '\r', '\x1c', '\x1d', '\x1e', '\x1f', ' ',
   '\x85', '\xa0', ' ', ' ', ' ', ' ', ' ', ' ',
   ' ', ' ', ' ', ' ', ' ', ' ', ' ',
   ' ', ' ', ' ', '　']

def pyIsSpace (c : Char) : Bool := decide (c ∈ pySpaceChars)

/-- Helper for `pySplit`: walks the string accumulating the current token
(in reverse) and emitting it at each whitespace run / at the end. -/
def splitAux : List Char → List Char → List (List Char)
  | [], acc => if acc.isEmpty then [] else [acc.reverse]
  | c :: rest, acc =>
    if pyIsSpace c then
      if acc.isEmpty then splitAux rest [] else acc.reverse :: splitAux rest []
    else splitAux rest (c :: acc)

/-- Python `seq.split()` (no separator argument): splits on runs of
whitespace and never yields empty tokens — `app.py` line 37. -/
def pySplit (s : List Char) : List (List Char) := splitAux s []

/-- Python `token.strip()`: removes leading and trailing whitespace —
`app.py` line 40. -/
def pyStrip (s : List Char) : List Char :=
  ((s.dropWhile pyIsSpace).reverse.dropWhile pyIsSpace).reverse

/-- The characters kept by the hex filter, `app.py` lines 51-52:
`"0123456789abcdefABCDEF"`. -/
def hexChars : List Char := "0123456789abcdefABCDEF".toList

def isHexChar (c : Char) : Bool := decide (c ∈ hexChars)

/-- Value of a single hexadecimal digit character (as used by
`int(hexpart, 16)`); only ever applied to members of `hexChars`. -/
def hexVal (c : Char) : Nat :=
  if c ≤ '9' then c.toNat - '0'.toNat
  else if c ≤ 'F' then c.toNat - 'A'.toNat + 10
  else c.toNat - 'a'.toNat + 10

/-- `int(s, 16)` on a string of hex digits: standard base-16 positional
value.  Python ints are unbounded, so the result is an untruncated `Nat`. -/
def parseHexList (l : List Char) : Nat :=
  l.foldl (fun a c => 16 * a + hexVal c) 0

/-- `token.upper().startswith("U+")` — `app.py` line 44.  The only
characters whose Python uppercase form is `"U"` are `u` and `U`, and `+`
is unchanged by `upper`, so this tests the first two characters. -/
def hasUPlus (t : List Char) : Bool :=
  match t with
  | a :: b :: _ => (a = 'u' || a = 'U') && b = '+'
  | _ => false

/-- `token.startswith("\\u") or token.startswith("\\U")` — `app.py`
line 46 (a literal backslash followed by `u` or `U`). -/
def hasBackslashU (t : List Char) : Bool :=
  match t with
  | a :: b :: _ => a = '\\' && (b = 'u' || b = 'U')
  | _ => false

/-- Hex payload before filtering — `app.py` lines 44-49.  The backslash
branch is `token.lstrip("\\u").lstrip("\\U")`: first strip all leading
characters in `{\, u}`, then all leading characters in `{\, U}`. -/
def rawPayload (t : List Char) : List Char :=
  if hasUPlus t then t.drop 2
  else if hasBackslashU t then
    (t.dropWhile (fun c => c = '\\' || c = 'u')).dropWhile
      (fun c => c = '\\' || c = 'U')
  else t

/-- Filtered hex payload — `app.py` lines 51-52: keep only characters of
`"0123456789abcdefABCDEF"`, anywhere in the string. -/
def hexPayload (t : List Char) : List Char :=
  (rawPayload t).filter isHexChar

/-- Per-token result of the loop body, `app.py` lines 39-60:
`none` models `continue` (token contributes nothing), `some cp` models
`chars.append(chr(codepoint))` where `cp` is the appended codepoint.
`chr` succeeds exactly on `0 ≤ cp ≤ 0x10FFFF` (surrogates included);
`int(hexpart, 16)` cannot fail on a nonempty all-hex string. -/
def tokenToCodepoint (token : List Char) : Option Nat :=
  if (pyStrip token).isEmpty then none
  else if (hexPayload (pyStrip token)).isEmpty then none
  else if parseHexList (hexPayload (pyStrip token)) ≤ 0x10FFFF then
    some (parseHexList (hexPayload (pyStrip token)))
  else none

/-- `unicode_seq_to_emoji` — `app.py` lines 29-61, for string arguments.
The result is the list of codepoints of the returned Python string. -/
def unicode_seq_to_emoji (seq : List Char) : List Nat :=
  if seq.isEmpty then []
  else (pySplit seq).filterMap tokenToCodepoint

/-- Python exceptions that the modelled code can raise. -/
inductive PyExn
  | valueError
  | indexError
  deriving Repr, DecidableEq

/-- `int(s, 16)` as a fallible operation: on the strings this program
feeds it (already hex-filtered) it succeeds iff the string is nonempty and
all-hex, returning the base-16 value; otherwise `ValueError`. -/
def int_base16 (s : List Char) : Except PyExn Nat :=
  if s.isEmpty || !s.all isHexChar then .error .valueError
  else .ok (parseHexList s)

/-- Python `chr(n)` for `n : Nat`: returns the one-character string with
codepoint `n` (modelled by the codepoint itself) when `n ≤ 0x10FFFF`
— lone surrogates included — and raises `ValueError` above that. -/
def pyChr (n : Nat) : Except PyExn Nat :=
  if n ≤ 0x10FFFF then .ok n else .error .valueError

/-- The `try` block body, `app.py` lines 56-57:
`codepoint = int(hexpart, 16); chr(codepoint)` — exceptions propagate. -/
def tokenBodyRaw (hexpart : List Char) : Except PyExn Nat := do
  let codepoint ← int_base16 hexpart
  pyChr codepoint

/-- Loop body for one token with the exception flow explicit,
`app.py` lines 39-60: `.ok none` is `continue`, `.ok (some cp)` appends
`chr(cp)`; the `except Exception: continue` turns any raised exception
into `.ok none`.  An `.error` result would mean an exception escaping to
the caller. -/
def tokenToCodepointExc (token : List Char) : Except PyExn (Option Nat) :=
  if (pyStrip token).isEmpty then .ok none
  else if (hexPayload (pyStrip token)).isEmpty then .ok none
  else
    match tokenBodyRaw (hexPayload (pyStrip token)) with
    | .ok cp => .ok (some cp)
    | .error _ => .ok none

/-- One iteration of the accumulation loop over `chars`. -/
def convertStep (chars : List Nat) (token : List Char) :
    Except PyExn (List Nat) := do
  let r ← tokenToCodepointExc token
  match r with
  | some c => pure (chars ++ [c])
  | none => pure chars

/-- `unicode_seq_to_emoji` with the exception flow explicit: an `.error`
result would be an exception reaching the caller. -/
def unicode_seq_to_emoji_exc (seq : List Char) : Except PyExn (List Nat) :=
  if seq.isEmpty then .ok []
  else (pySplit seq).foldlM convertStep []

/-- A Python value passed as the `seq` argument: a string, or any
non-string value (`None`, a number, a list, ...). -/
inductive PyValue
  | str (s : List Char)
  | nonStr

/-- `unicode_seq_to_emoji` including the guard on line 35:
`if not seq or not isinstance(seq, str): return ""`. -/
def unicode_seq_to_emoji_arg : PyValue → List Nat
  | .nonStr => []
  | .str s => if s.isEmpty then [] else unicode_seq_to_emoji s

/-- Uppercase hexadecimal digit characters, indexed by digit value. -/
def hexUpperChars : List Char := "0123456789ABCDEF".toList

def hexDigitChar (n : Nat) : Char := hexUpperChars.getD n '0'

/-- Writing a codepoint in (uppercase) hexadecimal, most significant
digit first — the `XXXX` part of a `U+XXXX` token. -/
def natToHex (n : Nat) : List Char :=
  if h : n < 16 then [hexDigitChar n]
  else natToHex (n / 16) ++ [hexDigitChar (n % 16)]
decreasing_by exact Nat.div_lt_self (by omega) (by omega)

/-- Encoding a codepoint as a `U+XXXX` token. -/
def encodeUPlus (cp : Nat) : List Char := 'U' :: '+' :: natToHex cp

/-! ## The serving layer: records and endpoints (`app.py` lines 113-152) -/

/-- One in-memory record of `_EMOJI_ITEMS` (`app.py` lines 24-26, 92-97). -/
structure EmojiItem where
  unicode_seq : List Char
  emoji : List Nat
  movie_name : String
  hint : String

/-- `fastapi.HTTPException` as raised here: a status code and a detail. -/
structure HTTPException where
  status_code : Nat
  detail : String
  deriving Repr, DecidableEq

/-- Anything a request handler can fail with: an `HTTPException` or an
ordinary Python exception. -/
inductive AppError
  | http (e : HTTPException)
  | exn (e : PyExn)
  deriving Repr, DecidableEq

/-- A `fastapi.Response` with a body of type `α`. -/
structure PlainResponse (α : Type) where
  content : α
  media_type : String
  deriving Repr, DecidableEq

/-- `as_plain_text` — `app.py` lines 119-120. -/
def as_plain_text {α : Type} (content : α) : PlainResponse α :=
  ⟨content, "text/plain; charset=utf-8"⟩

/-- `ensure_items` — `app.py` lines 113-116: raise 404 when the list is
empty. -/
def ensure_items (items : List EmojiItem) : Except AppError Unit :=
  if items.isEmpty then
    .error (.http ⟨404, "No emoji mappings available"⟩)
  else .ok ()

/-- `random.choice(l)`: returns `l[i]` for an RNG-chosen index `i`
(modelled by `r % l.length` for an arbitrary draw `r`); raises
`IndexError` on an empty list. -/
def random_choice {α : Type} (l : List α) (r : Nat) : Except AppError α :=
  if h : 0 < l.length then .ok (l.get ⟨r % l.length, Nat.mod_lt r h⟩)
  else .error (.exn .indexError)

/-- `GET /emoji` handler — `app.py` lines 127-136. -/
def random_emoji (items : List EmojiItem) (r : Nat) :
    Except AppError (PlainResponse (List Nat)) := do
  ensure_items items
  let it ← random_choice items r
  pure (as_plain_text it.emoji)

/-- `GET /movie` handler — `app.py` lines 139-144. -/
def random_movie (items : List EmojiItem) (r : Nat) :
    Except AppError (PlainResponse String) := do
  ensure_items items
  let it ← random_choice items r
  pure (as_plain_text it.movie_name)

/-- `GET /hint` handler — `app.py` lines 147-152: `hint or ""` maps a
falsy (empty) hint to the empty string. -/
def random_hint (items : List EmojiItem) (r : Nat) :
    Except AppError (PlainResponse String) := do
  ensure_items items
  let it ← random_choice items r
  let value := if it.hint.isEmpty then "" else it.hint
  pure (as_plain_text value)


/-! ## Helper lemmas -/

theorem hexChars_facts :
    ∀ c ∈ hexChars, pyIsSpace c = false ∧ c ≠ 'u' ∧ c ≠ 'U' ∧ c ≠ '\\' := by
  decide

theorem hexUpperChars_facts :
    ∀ c ∈ hexUpperChars, c ∈ hexChars ∧ pyIsSpace c = false := by
  decide

theorem isHexChar_iff {c : Char} : isHexChar c = true ↔ c ∈ hexChars := by
  simp [isHexChar]

theorem dropWhile_no_space {s : List Char}
    (h : ∀ c ∈ s, pyIsSpace c = false) : s.dropWhile pyIsSpace = s := by
  cases s with
  | nil => rfl
  | cons a t => simp [List.dropWhile_cons, h a (by simp)]

theorem pyStrip_no_space {s : List Char}
    (h : ∀ c ∈ s, pyIsSpace c = false) : pyStrip s = s := by
  unfold pyStrip
  rw [dropWhile_no_space h, dropWhile_no_space (by simpa using h), List.reverse_reverse]

theorem splitAux_no_space (s : List Char) (acc : List Char)
    (h : ∀ c ∈ s, pyIsSpace c = false) :
    splitAux s acc =
      if (acc.reverse ++ s).isEmpty then [] else [acc.reverse ++ s] := by
  induction s generalizing acc with
  | nil => simp [splitAux]
  | cons a t ih =>
    have ha : pyIsSpace a = false := h a (by simp)
    rw [splitAux, ha]
    simp only [Bool.false_eq_true, if_false]
    rw [ih (a :: acc) (fun c hc => h c (by simp [hc]))]
    simp

theorem pySplit_single {s : List Char} (hne : ¬s.isEmpty)
    (h : ∀ c ∈ s, pyIsSpace c = false) : pySplit s = [s] := by
  unfold pySplit
  rw [splitAux_no_space s [] h]
  simpa using hne

theorem filterMap_map_of_isSome {α β : Type} {f : α → Option β} :
    ∀ {l : List α}, (∀ t ∈ l, (f t).isSome = true) →
      (l.filterMap f).map some = l.map f := by
  intro l
  induction l with
  | nil => intro _; rfl
  | cons a t ih =>
    intro h
    have ha := h a (by simp)
    obtain ⟨b, hb⟩ := Option.isSome_iff_exists.mp ha
    simp [List.filterMap_cons, hb, ih (fun x hx => h x (by simp [hx]))]

theorem hexPayload_all_hex {t : List Char} :
    ∀ c ∈ hexPayload t, isHexChar c = true := by
  intro c hc
  exact (List.mem_filter.mp hc).2

theorem Except_ok_bind {ε α β : Type} (x : α) (f : α → Except ε β) :
    (Except.ok x >>= f : Except ε β) = f x := rfl

theorem Except_pure {ε α : Type} (x : α) :
    (pure x : Except ε α) = Except.ok x := rfl

theorem tokenExc_eq (t : List Char) :
    tokenToCodepointExc t = Except.ok (tokenToCodepoint t) := by
  unfold tokenToCodepointExc tokenToCodepoint
  by_cases hs : (pyStrip t).isEmpty
  · simp [hs]
  · simp only [hs, Bool.false_eq_true, if_false]
    by_cases hh : (hexPayload (pyStrip t)).isEmpty
    · simp [hh]
    · have hall : (hexPayload (pyStrip t)).all isHexChar = true := by
        simp only [List.all_eq_true]
        exact hexPayload_all_hex
      simp only [hh, Bool.false_eq_true, if_false]
      rw [tokenBodyRaw]
      unfold int_base16
      simp only [hh, hall, Bool.not_true, Bool.or_false, Bool.false_eq_true,
        if_false, Except_ok_bind]
      unfold pyChr
      by_cases hc : parseHexList (hexPayload (pyStrip t)) ≤ 0x10FFFF <;>
        simp [hc]

theorem foldlM_convertStep (parts : List (List Char)) :
    ∀ acc : List Nat,
      parts.foldlM convertStep acc =
        Except.ok (acc ++ parts.filterMap tokenToCodepoint) := by
  induction parts with
  | nil =>
    intro acc
    simp only [List.foldlM, List.filterMap_nil, List.append_nil]
    rfl
  | cons t ts ih =>
    intro acc
    rw [List.foldlM_cons]
    rw [convertStep, tokenExc_eq t]
    cases h : tokenToCodepoint t with
    | none =>
      simp [List.filterMap_cons, h, Except_ok_bind, Except_pure, ih acc]
    | some c =>
      simp [List.filterMap_cons, h, Except_ok_bind, Except_pure,
        ih (acc ++ [c])]

theorem hexVal_hexDigitChar : ∀ d : Fin 16, hexVal (hexDigitChar d.val) = d.val := by
  decide

theorem hexDigitChar_mem : ∀ d : Fin 16, hexDigitChar d.val ∈ hexUpperChars := by
  decide

theorem parseHex_append (l : List Char) (c : Char) :
    parseHexList (l ++ [c]) = 16 * parseHexList l + hexVal c := by
  simp [parseHexList, List.foldl_append]

theorem natToHex_mem (n : Nat) : ∀ c ∈ natToHex n, c ∈ hexUpperChars := by
  induction n using Nat.strong_induction_on with
  | _ n ih =>
    rw [natToHex]
    by_cases hlt : n < 16
    · rw [dif_pos hlt]
      intro c hc
      simp only [List.mem_singleton] at hc
      subst hc
      exact hexDigitChar_mem ⟨n, hlt⟩
    · rw [dif_neg hlt]
      intro c hc
      rcases List.mem_append.mp hc with h1 | h2
      · exact ih (n / 16) (Nat.div_lt_self (by omega) (by omega)) c h1
      · simp only [List.mem_singleton] at h2
        subst h2
        exact hexDigitChar_mem ⟨n % 16, Nat.mod_lt n (by omega)⟩

theorem natToHex_ne_nil (n : Nat) : natToHex n ≠ [] := by
  rw [natToHex]
  by_cases hlt : n < 16
  · simp [hlt]
  · simp [hlt]

theorem parse_natToHex (n : Nat) : parseHexList (natToHex n) = n := by
  induction n using Nat.strong_induction_on with
  | _ n ih =>
    rw [natToHex]
    by_cases hlt : n < 16
    · rw [dif_pos hlt]
      have h1 := hexVal_hexDigitChar ⟨n, hlt⟩
      simpa [parseHexList] using h1
    · rw [dif_neg hlt]
      rw [parseHex_append, ih (n / 16) (Nat.div_lt_self (by omega) (by omega))]
      have h2 := hexVal_hexDigitChar ⟨n % 16, Nat.mod_lt n (by omega)⟩
      simp only [Fin.val_mk] at h2
      rw [h2]
      omega

theorem filter_all_eq {p : Char → Bool} :
    ∀ {l : List Char}, (∀ c ∈ l, p c = true) → l.filter p = l := by
  intro l
  induction l with
  | nil => intro _; rfl
  | cons a t ih =>
    intro h
    rw [List.filter_cons, if_pos (h a (by simp)), ih (fun c hc => h c (by simp [hc]))]

theorem hasUPlus_hex_false {tok : List Char} (h : ∀ c ∈ tok, c ∈ hexChars) :
    hasUPlus tok = false := by
  match tok with
  | [] => rfl
  | [a] => rfl
  | a :: b :: rest =>
    have ha := hexChars_facts a (h a (by simp))
    simp [hasUPlus, ha.2.1, ha.2.2.1]

theorem hasBackslashU_hex_false {tok : List Char} (h : ∀ c ∈ tok, c ∈ hexChars) :
    hasBackslashU tok = false := by
  match tok with
  | [] => rfl
  | [a] => rfl
  | a :: b :: rest =>
    have ha := hexChars_facts a (h a (by simp))
    simp [hasBackslashU, ha.2.2.2]

theorem natToHex_hex (n : Nat) : ∀ c ∈ natToHex n, c ∈ hexChars :=
  fun c hc => (hexUpperChars_facts c (natToHex_mem n c hc)).1

theorem natToHex_not_space (n : Nat) : ∀ c ∈ natToHex n, pyIsSpace c = false :=
  fun c hc => (hexUpperChars_facts c (natToHex_mem n c hc)).2

theorem encodeUPlus_not_space (cp : Nat) :
    ∀ c ∈ encodeUPlus cp, pyIsSpace c = false := by
  intro c hc
  rw [encodeUPlus] at hc
  simp only [List.mem_cons] at hc
  rcases hc with rfl | rfl | hc
  · decide
  · decide
  · exact natToHex_not_space cp c hc

theorem tokenToCodepoint_encodeUPlus (cp : Nat) (h : cp ≤ 0x10FFFF) :
    tokenToCodepoint (encodeUPlus cp) = some cp := by
  unfold tokenToCodepoint
  rw [show encodeUPlus cp = 'U' :: '+' :: natToHex cp from rfl]
  rw [pyStrip_no_space (by simpa [encodeUPlus] using encodeUPlus_not_space cp)]
  have hne : ('U' :: '+' :: natToHex cp : List Char).isEmpty = false := rfl
  rw [hne]
  simp only [Bool.false_eq_true, if_false]
  have hU : hasUPlus ('U' :: '+' :: natToHex cp) = true := rfl
  have hpay : hexPayload ('U' :: '+' :: natToHex cp) = natToHex cp := by
    rw [hexPayload, rawPayload, hU, if_pos rfl]
    rw [show ('U' :: '+' :: natToHex cp : List Char).drop 2 = natToHex cp from rfl]
    exact filter_all_eq (fun c hc => isHexChar_iff.mpr (natToHex_hex cp c hc))
  rw [hpay]
  have hnn : (natToHex cp).isEmpty = false := by
    rw [List.isEmpty_eq_false_iff_exists_mem]
    rcases List.exists_mem_of_ne_nil _ (natToHex_ne_nil cp) with ⟨c, hc⟩
    exact ⟨c, hc⟩
  rw [hnn]
  simp only [Bool.false_eq_true, if_false]
  rw [parse_natToHex cp, if_pos h]

theorem tokenToCodepoint_uplus_eq (tok : List Char) (h1 : tok ≠ [])
    (h2 : ∀ c ∈ tok, isHexChar c = true) :
    tokenToCodepoint ('U' :: '+' :: tok) = tokenToCodepoint tok := by
  have hmem : ∀ c ∈ tok, c ∈ hexChars := fun c hc => isHexChar_iff.mp (h2 c hc)
  have hns : ∀ c ∈ tok, pyIsSpace c = false :=
    fun c hc => (hexChars_facts c (hmem c hc)).1
  have hns2 : ∀ c ∈ ('U' :: '+' :: tok : List Char), pyIsSpace c = false := by
    intro c hc
    simp only [List.mem_cons] at hc
    rcases hc with rfl | rfl | hc
    · decide
    · decide
    · exact hns c hc
  unfold tokenToCodepoint
  rw [pyStrip_no_space hns2, pyStrip_no_space hns]
  have hneL : ('U' :: '+' :: tok : List Char).isEmpty = false := rfl
  have hneR : tok.isEmpty = false := by
    cases tok with
    | nil => exact absurd rfl h1
    | cons a t => rfl
  rw [hneL, hneR]
  simp only [Bool.false_eq_true, if_false]
  have hpayL : hexPayload ('U' :: '+' :: tok) = tok := by
    have hU : hasUPlus ('U' :: '+' :: tok) = true := rfl
    rw [hexPayload, rawPayload, hU, if_pos rfl]
    rw [show ('U' :: '+' :: tok : List Char).drop 2 = tok from rfl]
    exact filter_all_eq h2
  have hpayR : hexPayload tok = tok := by
    rw [hexPayload, rawPayload, hasUPlus_hex_false hmem]
    rw [hasBackslashU_hex_false hmem]
    simp only [Bool.false_eq_true, if_false]
    exact filter_all_eq h2
  rw [hpayL, hpayR]

/-! ## Claim theorems -/

/-- Claim C1, counterexample: on the input `"garbage U+1F680 !!!"` the
converter does NOT return only the rocket character — the token
`"garbage"` is not dropped, because its hex digits `a`, `b`, `a`, `e`
survive the filter and parse to the codepoint 0xABAE. -/
theorem convert_garbage_not_rocket_only :
    unicode_seq_to_emoji ("garbage U+1F680 !!!".toList) ≠ [0x1F680] := by
  decide

/-- Claim C1, amended: `convert("garbage U+1F680 !!!")` returns the
two-character string U+ABAE then U+1F680: the token `"!!!"` contributes
nothing, but `"garbage"` contributes the character U+ABAE obtained from
its surviving hex digits `"abae"`. -/
theorem convert_garbage_value :
    unicode_seq_to_emoji ("garbage U+1F680 !!!".toList) = [0xABAE, 0x1F680] := by
  decide

/-- Claim C2: for every input, the converter with its exception flow made
explicit returns `.ok` of exactly what the pure converter returns — no
exception ever reaches the caller, and the result is always a (possibly
empty) string. -/
theorem convert_never_raises (seq : List Char) :
    unicode_seq_to_emoji_exc seq = Except.ok (unicode_seq_to_emoji seq) := by
  unfold unicode_seq_to_emoji_exc unicode_seq_to_emoji
  by_cases hse : seq.isEmpty
  · simp [hse]
  · simp only [hse, Bool.false_eq_true, if_false]
    simpa using foldlM_convertStep (pySplit seq) []

/-- Claim C3: the number of characters in the output never exceeds the
number of whitespace-separated tokens of the input; failed tokens are
dropped, never substituted. -/
theorem convert_length_le_token_count (seq : List Char) :
    (unicode_seq_to_emoji seq).length ≤ (pySplit seq).length := by
  unfold unicode_seq_to_emoji
  by_cases hse : seq.isEmpty
  · simp [hse]
  · simp only [hse, Bool.false_eq_true, if_false]
    exact List.length_filterMap_le _ _

/-- Claim C4: when every token of the input parses successfully, the
output is exactly the per-token codepoints in input-token order — in
particular it has exactly as many characters as there are tokens. -/
theorem convert_all_valid_tokens_order (seq : List Char)
    (h : ∀ t ∈ pySplit seq, (tokenToCodepoint t).isSome = true) :
    (unicode_seq_to_emoji seq).map some = (pySplit seq).map tokenToCodepoint ∧
    (unicode_seq_to_emoji seq).length = (pySplit seq).length := by
  unfold unicode_seq_to_emoji
  by_cases hse : seq.isEmpty
  · have hnil : seq = [] := by simpa using hse
    subst hnil
    exact ⟨rfl, rfl⟩
  · simp only [hse, Bool.false_eq_true, if_false]
    have h1 := filterMap_map_of_isSome h
    refine ⟨h1, ?_⟩
    have h2 := congrArg List.length h1
    simpa using h2

theorem convert_all_valid_tokens_order_witness :
    (unicode_seq_to_emoji ("U+1F680 U+1F315".toList)).map some =
      (pySplit ("U+1F680 U+1F315".toList)).map tokenToCodepoint ∧
    (unicode_seq_to_emoji ("U+1F680 U+1F315".toList)).length =
      (pySplit ("U+1F680 U+1F315".toList)).length :=
  convert_all_valid_tokens_order ("U+1F680 U+1F315".toList) (by decide)

/-- Claim C5: for a nonempty token made of bare hex digits, prepending the
`U+` marker does not change the converter's output (prefix-optional
equivalence). -/
theorem convert_uplus_optional (tok : List Char) (h1 : tok ≠ [])
    (h2 : ∀ c ∈ tok, isHexChar c = true) :
    unicode_seq_to_emoji ('U' :: '+' :: tok) = unicode_seq_to_emoji tok := by
  have hmem : ∀ c ∈ tok, c ∈ hexChars := fun c hc => isHexChar_iff.mp (h2 c hc)
  have hns : ∀ c ∈ tok, pyIsSpace c = false :=
    fun c hc => (hexChars_facts c (hmem c hc)).1
  have hns2 : ∀ c ∈ ('U' :: '+' :: tok : List Char), pyIsSpace c = false := by
    intro c hc
    simp only [List.mem_cons] at hc
    rcases hc with rfl | rfl | hc
    · decide
    · decide
    · exact hns c hc
  unfold unicode_seq_to_emoji
  rw [pySplit_single (by simp) hns2, pySplit_single (by simpa using h1) hns]
  have hneL : ('U' :: '+' :: tok : List Char).isEmpty = false := rfl
  have hneR : tok.isEmpty = false := by
    cases tok with
    | nil => exact absurd rfl h1
    | cons a t => rfl
  rw [hneL, hneR]
  simp only [Bool.false_eq_true, if_false]
  simp only [List.filterMap_cons, List.filterMap_nil,
    tokenToCodepoint_uplus_eq tok h1 h2]

theorem convert_uplus_optional_witness :
    unicode_seq_to_emoji ('U' :: '+' :: ['1', 'F', '6', '8', '0']) =
      unicode_seq_to_emoji ['1', 'F', '6', '8', '0'] ∧
    unicode_seq_to_emoji ['1', 'F', '6', '8', '0'] = [0x1F680] :=
  ⟨convert_uplus_optional ['1', 'F', '6', '8', '0'] (by decide) (by decide),
   by decide⟩

/-- Claim C6: for every codepoint in the valid range of Python `chr`
(`0 .. 0x10FFFF`), encoding it as a `U+XXXX` token (uppercase hex) and
converting reproduces the one-character string with that codepoint. -/
theorem convert_roundtrip (cp : Nat) (h : cp ≤ 0x10FFFF) :
    unicode_seq_to_emoji (encodeUPlus cp) = [cp] := by
  unfold unicode_seq_to_emoji
  have hne : (encodeUPlus cp).isEmpty = false := rfl
  rw [hne]
  simp only [Bool.false_eq_true, if_false]
  rw [pySplit_single (by rw [hne]; simp) (encodeUPlus_not_space cp)]
  simp only [List.filterMap_cons, List.filterMap_nil,
    tokenToCodepoint_encodeUPlus cp h]

theorem convert_roundtrip_witness :
    unicode_seq_to_emoji (encodeUPlus 0x1F680) = [0x1F680] :=
  convert_roundtrip 0x1F680 (by decide)

/-- Claim C7: a token whose filtered hex payload parses to a value above
the range of Python `chr` (greater than 0x10FFFF) is skipped silently: it
contributes no character, and the `ValueError` raised by `chr` is caught
rather than reaching the caller. -/
theorem out_of_range_token_skipped (tok : List Char)
    (h : 0x10FFFF < parseHexList (hexPayload (pyStrip tok))) :
    tokenToCodepoint tok = none ∧
      tokenToCodepointExc tok = Except.ok none := by
  have hpe : (hexPayload (pyStrip tok)).isEmpty = false := by
    cases he : (hexPayload (pyStrip tok)).isEmpty
    · rfl
    · rw [List.isEmpty_iff] at he
      rw [he] at h
      simp [parseHexList] at h
  have hse : (pyStrip tok).isEmpty = false := by
    cases he : (pyStrip tok).isEmpty
    · rfl
    · rw [List.isEmpty_iff] at he
      rw [he] at hpe
      simp [hexPayload, rawPayload, hasUPlus, hasBackslashU] at hpe
  have h1 : tokenToCodepoint tok = none := by
    unfold tokenToCodepoint
    rw [hse, hpe]
    simp only [Bool.false_eq_true, if_false]
    rw [if_neg (by omega)]
  exact ⟨h1, by rw [tokenExc_eq, h1]⟩

theorem out_of_range_token_skipped_witness :
    tokenToCodepoint ("110000".toList) = none ∧
      tokenToCodepointExc ("110000".toList) = Except.ok none :=
  out_of_range_token_skipped ("110000".toList) (by decide)

/-- Claim C8: the empty string converts to the empty string, and a falsy
or non-string argument is treated as empty as well. -/
theorem convert_empty_input_empty :
    unicode_seq_to_emoji_arg (PyValue.str []) = [] ∧
    unicode_seq_to_emoji_arg PyValue.nonStr = [] ∧
    unicode_seq_to_emoji [] = [] := by
  refine ⟨rfl, rfl, rfl⟩

/-- Claim C9: with no records loaded, each of the three GET endpoints
fails with HTTP 404 (for any random draw), instead of producing a
response. -/
theorem endpoints_404_when_empty (r : Nat) :
    random_emoji [] r =
      Except.error (.http ⟨404, "No emoji mappings available"⟩) ∧
    random_movie [] r =
      Except.error (.http ⟨404, "No emoji mappings available"⟩) ∧
    random_hint [] r =
      Except.error (.http ⟨404, "No emoji mappings available"⟩) := by
  refine ⟨rfl, rfl, rfl⟩

/-- Claim C10: a token whose filtered hex payload parses into the
surrogate range 0xD800 .. 0xDFFF is NOT skipped: Python `chr` accepts
lone surrogates, so the token contributes that codepoint to the output. -/
theorem surrogate_token_kept (tok : List Char)
    (h1 : 0xD800 ≤ parseHexList (hexPayload (pyStrip tok)))
    (h2 : parseHexList (hexPayload (pyStrip tok)) ≤ 0xDFFF) :
    tokenToCodepoint tok = some (parseHexList (hexPayload (pyStrip tok))) := by
  have hpe : (hexPayload (pyStrip tok)).isEmpty = false := by
    cases he : (hexPayload (pyStrip tok)).isEmpty
    · rfl
    · rw [List.isEmpty_iff] at he
      rw [he] at h1
      simp [parseHexList] at h1
  have hse : (pyStrip tok).isEmpty = false := by
    cases he : (pyStrip tok).isEmpty
    · rfl
    · rw [List.isEmpty_iff] at he
      rw [he] at hpe
      simp [hexPayload, rawPayload, hasUPlus, hasBackslashU] at hpe
  unfold tokenToCodepoint
  rw [hse, hpe]
  simp only [Bool.false_eq_true, if_false]
  rw [if_pos (by omega)]

theorem surrogate_token_kept_witness :
    tokenToCodepoint ("D800".toList) = some 0xD800 := by
  have h := surrogate_token_kept ("D800".toList) (by decide) (by decide)
  rw [h]
  decide
